import Mathlib

/-!
Shallow embedding of the rusty-termcolor library (src/colors.rs,
src/formatting.rs, src/effects.rs, src/styles/banners.rs) and proofs of the
specification claims about it.  Machine integers (`u8`, `u16`, `usize`) are
modelled as `ℕ`, with overflow and panics made explicit where the source can
hit them (`Option` results); `f32` arithmetic appears only in `fade_color`
and is modelled over `ℚ` with the NaN path made explicit (see `fadeColor`).
-/

namespace RustyTermcolor

/-- `Color` from src/colors.rs: three 8-bit channels, modelled as naturals
(bounded by 255 in theorems where the bound matters). -/
structure Color where
  r : ℕ
  g : ℕ
  b : ℕ
deriving DecidableEq, Repr

/-- `Color::rgb` from src/colors.rs. -/
def Color.rgb (c : Color) : ℕ × ℕ × ℕ := (c.r, c.g, c.b)

/-- `Color::to_256_color` from src/colors.rs:
`16 + 36 * (r as u16 * 5 / 255) as u8 + 6 * (g as u16 * 5 / 255) as u8 + (b as u16 * 5 / 255) as u8`.
For channels ≤ 255 every intermediate value stays below 256 (the maximum of
the whole sum is 231), so the `u8`/`u16` casts never truncate and plain `ℕ`
arithmetic with truncating division is an exact model. -/
def Color.to256Color (c : Color) : ℕ :=
  16 + 36 * (c.r * 5 / 255) + 6 * (c.g * 5 / 255) + (c.b * 5 / 255)

/-- Decimal digits of a natural number, most significant first: the digit
sequence Rust's `Display` for unsigned integers emits inside
`write!(f, "\x1B[38;2;{};{};{}m", r, g, b)` (src/colors.rs) and the `{i}/{total}`
counters of src/effects.rs. -/
def natDigits (n : ℕ) : List Char :=
  if h : n < 10 then [Char.ofNat (48 + n)]
  else natDigits (n / 10) ++ [Char.ofNat (48 + n % 10)]
  termination_by n
  decreasing_by exact Nat.div_lt_self (by omega) (by omega)

/-- Decimal rendering of a natural number as a string (Rust `Display` for
unsigned integers). -/
def natRepr (n : ℕ) : String := String.mk (natDigits n)

/-- The character list of the ANSI truecolor foreground escape
`ESC[38;2;<r>;<g>;<b>m` emitted by `impl fmt::Display for Color`
(src/colors.rs line 49). -/
def ansiChars (r g b : ℕ) : List Char :=
  '\x1B' :: '[' :: '3' :: '8' :: ';' :: '2' :: ';' ::
    (natDigits r ++ ';' :: (natDigits g ++ ';' :: (natDigits b ++ ['m'])))

/-- `impl fmt::Display for Color` (src/colors.rs): the rendered ANSI escape. -/
def Color.toAnsi (c : Color) : String := String.mk (ansiChars c.r c.g c.b)

/-- `RESET` from src/colors.rs: `"\x1B[0m"`. -/
def RESET : String := "\x1B[0m"

/-- Greedy decimal parser: consumes leading digit characters, accumulating
their value; returns the value and the unconsumed rest.  Used to parse the
three integers embedded in a rendered escape sequence. -/
def readNat : List Char → ℕ → ℕ × List Char
  | c :: rest, acc =>
    if c.isDigit then readNat rest (acc * 10 + (c.toNat - 48)) else (acc, c :: rest)
  | [], acc => (acc, [])

/-- Expects a leading `;` and returns the characters after it. -/
def expectSemi : List Char → Option (List Char)
  | ';' :: rest => some rest
  | _ => none

/-- Expects exactly the final `m` of the escape sequence. -/
def expectEnd : List Char → Bool
  | ['m'] => true
  | _ => false

/-- Parses `<r>;<g>;<b>m`, the tail of the escape sequence after the
`ESC[38;2;` prefix: three decimal integers separated by `;`, closed by `m`. -/
def parseRgbTail (cs : List Char) : Option (ℕ × ℕ × ℕ) :=
  let p1 := readNat cs 0
  (expectSemi p1.2).bind fun rest2 =>
    let p2 := readNat rest2 0
    (expectSemi p2.2).bind fun rest4 =>
      let p3 := readNat rest4 0
      if expectEnd p3.2 then some (p1.1, p2.1, p3.1) else none

/-- Parser for the ANSI truecolor escape `ESC[38;2;<r>;<g>;<b>m`: recovers the
three embedded decimal integers. -/
def parseRgbAnsi (s : String) : Option (ℕ × ℕ × ℕ) :=
  if s.data.take 7 = ['\x1B', '[', '3', '8', ';', '2', ';'] then
    parseRgbTail (s.data.drop 7)
  else none

/-- Rust's `as u8` cast applied to a nonnegative `f32` value: truncate toward
zero and saturate at 255 (negative values saturate to 0). -/
def ratToU8 (q : ℚ) : ℕ := if q < 0 then 0 else min 255 q.floor.toNat

/-- `fade_color` from src/colors.rs lines 77-88.  The source computes
`t = i as f32 / (steps - 1) as f32` and interpolates each channel in `f32`.
When `steps == 1` the division is `0.0 / 0.0 = NaN`; NaN propagates through
the interpolation and Rust's saturating `as u8` cast maps NaN to 0, so every
channel comes out 0 — that branch is made explicit here.  For `steps ≥ 2`
the endpoints are exact in `f32` (`t` is exactly `0.0` at `i = 0` and exactly
`1.0` at `i = steps-1`, and every channel value ≤ 255 is exactly
representable), so the `ℚ` model agrees with the source there; intermediate
indices may differ from `f32` by rounding, which no claim touches. -/
def fadeColor (start stop : Color) (steps : ℕ) : List Color :=
  (List.range steps).map fun i =>
    if steps ≤ 1 then
      { r := 0, g := 0, b := 0 }
    else
      let t : ℚ := i / (steps - 1 : ℕ)
      { r := ratToU8 (start.r * (1 - t) + stop.r * t),
        g := ratToU8 (start.g * (1 - t) + stop.g * t),
        b := ratToU8 (start.b * (1 - t) + stop.b * t) }

/-! ## Formatting (src/formatting.rs) -/

/-- `print_fade` from src/formatting.rs lines 32-43, as the string it writes
to stdout.  For each character `i` the source computes
`color_index = (i * color_count) / chars.len()` and indexes `colors[color_index]`;
an out-of-bounds index is a panic, modelled as `none`.  After the loop it
prints `RESET`. -/
def printFade (text : String) (colors : List Color) : Option String :=
  let chars := text.data
  (chars.enum.foldl
    (fun acc p =>
      acc.bind fun s =>
        let colorIndex := p.1 * colors.length / chars.length
        (colors.get? colorIndex).map fun col => s ++ col.toAnsi ++ p.2.toString)
    (some "")).map (fun s => s ++ RESET)

/-- Rust's `format!("{:>width$}", text)`: right-align `text` in a field of
`width` characters (no effect when the text is already at least that wide). -/
def formatRightAlign (w : ℕ) (text : String) : String :=
  if w ≤ text.length then text
  else String.mk (List.replicate (w - text.length) ' ') ++ text

/-- Rust's `format!("{:<width$}", text)`: left-align `text` in a field of
`width` characters. -/
def formatLeftAlign (w : ℕ) (text : String) : String :=
  if w ≤ text.length then text
  else text ++ String.mk (List.replicate (w - text.length) ' ')

/-- `center_text` from src/formatting.rs lines 54-60.  The terminal width is
an external collaborator (80 on failure), injected here as `termWidth`.  The
source computes `let padding = (width - text.len()) / 2;` on `usize`, where
`text.len()` is the UTF-8 byte length; when the text is longer than the
width the subtraction overflows (a panic in debug builds), modelled as
`none`.  Otherwise it returns `format!("{:>width$}", text, width = padding + text.len())`. -/
def centerText (termWidth : ℕ) (text : String) : Option String :=
  let len := text.utf8ByteSize
  if len ≤ termWidth then
    let padding := (termWidth - len) / 2
    some (formatRightAlign (padding + len) text)
  else none

/-- Length of the cell `row[i]` as `create_table`'s width computation sees it:
`row.get(i).map_or(0, |cell| cell.len())` (byte length, missing index is 0). -/
def cellLen (row : List String) (i : ℕ) : ℕ :=
  ((row.get? i).map String.utf8ByteSize).getD 0

/-- The per-column widths of `create_table` (src/formatting.rs lines 100-110):
for column `i`, the maximum of all rows' cell lengths at index `i`
(`max().unwrap_or(0)`) maxed with the header's length. -/
def columnWidths (headers : List String) (rows : List (List String)) : List ℕ :=
  headers.enum.map fun p =>
    max ((rows.map fun r => cellLen r p.1).foldr max 0) p.2.utf8ByteSize

/-- One borderless cell sequence of `create_table`'s header/data row loops
(src/formatting.rs lines 127-134 and 147-156): each pair `(i, cell)` renders
as `format!("{:<width$} ", cell, width = column_widths[i])` followed by
`"│ "` when `i < rowLen - 1`.  `column_widths[i]` panics when `i` is out of
bounds, modelled as `none`. -/
def renderCells (widths : List ℕ) (rowLen : ℕ) : List (ℕ × String) → Option String
  | [] => some ""
  | p :: rest =>
    (widths.get? p.1).bind fun w =>
      (renderCells widths rowLen rest).map fun s =>
        formatLeftAlign w p.2 ++ " " ++ (if p.1 + 1 < rowLen then "│ " else "") ++ s

/-- A full table row line (without color wrapping): `"║ "`, the cells of the
row, `"║"`.  The loop enumerates only the cells the row actually has. -/
def renderRow (widths : List ℕ) (row : List String) : Option String :=
  (renderCells widths row.length row.enum).map fun s => "║ " ++ s ++ "║"

/-- `create_table` from src/formatting.rs lines 99-169, as the string it
returns.  Borders join `"═".repeat(w + 2)` runs with `╦`/`╬`/`╩`; the header
row and every data row are rendered by `renderRow` and wrapped in the
optional color and RESET. -/
def createTable (headers : List String) (rows : List (List String))
    (color : Option Color) : Option String :=
  let widths := columnWidths headers rows
  let colorStr := (color.map Color.toAnsi).getD ""
  let resetStr := if color.isSome then RESET else ""
  let border (l sep r : String) : String :=
    colorStr ++ l ++
      String.intercalate sep (widths.map fun w => String.mk (List.replicate (w + 2) '═')) ++
      r ++ resetStr ++ "\n"
  (renderRow widths headers).bind fun headerLine =>
    (rows.mapM (renderRow widths)).map fun rowLines =>
      border "╔" "╦" "╗" ++
      colorStr ++ headerLine ++ resetStr ++ "\n" ++
      border "╠" "╬" "╣" ++
      String.join (rowLines.map fun l => colorStr ++ l ++ resetStr ++ "\n") ++
      border "╚" "╩" "╝"

/-- Modelled from the spec: rendering a short row "with the missing trailing
cells as empty zero-width cells" — the row padded with empty cells up to the
column count, which is how claim C6 describes short-row rendering.  Compared
below against the source-translated `renderRow`. -/
def renderRowPadded (widths : List ℕ) (row : List String) : Option String :=
  renderRow widths (row ++ List.replicate (widths.length - row.length) "")

/-! ## Timed effects (src/effects.rs)

The effects write to stdout, flush, and sleep; each run is modelled as the
list of those events in order. -/

/-- `EffectSettings` from src/effects.rs lines 8-12. -/
structure EffectSettings where
  delay : ℕ
  iterations : ℕ
  width : ℕ
deriving DecidableEq, Repr

/-- `Default for EffectSettings` (src/effects.rs lines 14-24). -/
def EffectSettings.default : EffectSettings := ⟨50, 3, 20⟩

/-- One observable step of an effect: a stdout write, a flush, or a sleep of
the given number of milliseconds. -/
inductive OutEvent where
  | print (s : String)
  | flush
  | sleep (ms : ℕ)
deriving DecidableEq, Repr

/-- The spinner glyph sets of `progress_spinner` (src/effects.rs lines
195-199): style 1 the Braille frames, style 2 the arrow frames, any other
style the default `| / - \` set. -/
def spinnerChars (style : ℕ) : List Char :=
  match style with
  | 1 => ['⠋', '⠙', '⠹', '⠸', '⠼', '⠴', '⠦', '⠧', '⠇', '⠏']
  | 2 => ['←', '↖', '↑', '↗', '→', '↘', '↓', '↙']
  | _ => ['|', '/', '-', '\\']

/-- The frame `progress_spinner` prints at step `i` (src/effects.rs lines
202-203): `"\r{color}{spinner_char} {i}/{total}"` with
`spinner_char = spinner_chars[i % spinner_chars.len()]` (every glyph set is
nonempty, so the index is always in bounds; `getD` never takes its default). -/
def spinnerFrame (color : Color) (total i : ℕ) (chars : List Char) : String :=
  "\r" ++ color.toAnsi ++ (chars.getD (i % chars.length) ' ').toString ++
    " " ++ natRepr i ++ "/" ++ natRepr total

/-- `progress_spinner` from src/effects.rs lines 194-208: for `i in 0..=total`
print the frame, flush, sleep; finally `println!("{RESET}")`. -/
def progressSpinner (total : ℕ) (settings : EffectSettings) (color : Color)
    (style : ℕ) : List OutEvent :=
  ((List.range (total + 1)).map fun i =>
    [OutEvent.print (spinnerFrame color total i (spinnerChars style)),
     OutEvent.flush, OutEvent.sleep settings.delay]).flatten
  ++ [OutEvent.print (RESET ++ "\n")]

/-- The rainbow palette of `rainbow_text` (src/effects.rs lines 161-169). -/
def rainbowColors : List Color :=
  [⟨255, 0, 0⟩, ⟨255, 127, 0⟩, ⟨255, 255, 0⟩, ⟨0, 255, 0⟩,
   ⟨0, 0, 255⟩, ⟨75, 0, 130⟩, ⟨143, 0, 255⟩]

/-- The colored piece `rainbow_text` appends for the enumerated character
`p = (j, c)` at rotation `i` (src/effects.rs lines 174-177):
`format!("{}{c}", colors[(i + j) % colors.len()])`.  The index is always in
bounds, so `getD` never takes its default. -/
def rainbowSegment (i : ℕ) (p : ℕ × Char) : String :=
  ((rainbowColors.get? ((i + p.1) % rainbowColors.length)).getD ⟨0, 0, 0⟩).toAnsi
    ++ p.2.toString

/-- The full line `rainbow_text` builds at rotation `i`. -/
def rainbowFrame (text : String) (i : ℕ) : String :=
  String.join (text.data.enum.map (rainbowSegment i))

/-- `rainbow_text` from src/effects.rs lines 160-184: for each iteration, for
each rotation `i in 0..colors.len()`, print `"\r{colored_text}{RESET}"`,
flush, sleep once; finally `println!()`. -/
def rainbowText (text : String) (settings : EffectSettings) : List OutEvent :=
  ((List.range settings.iterations).map fun _ =>
    ((List.range rainbowColors.length).map fun i =>
      [OutEvent.print ("\r" ++ rainbowFrame text i ++ RESET),
       OutEvent.flush, OutEvent.sleep settings.delay]).flatten).flatten
  ++ [OutEvent.print "\n"]

/-- Rust's `c.to_uppercase().next().unwrap_or(c)` / lowercase analogue: the
first scalar of the full case mapping, or `c` itself if the mapping is empty.
The Unicode case tables live in Rust's standard library, outside this
repository, so the mappings `up`/`lo` are parameters of the model. -/
def firstScalar (mapped : List Char) (c : Char) : Char := mapped.headD c

/-- One frame of `wiggle` (src/effects.rs lines 84-92): the whole text with
position `i` uppercased (first scalar of its uppercase mapping) and every
other position lowercased (first scalar of its lowercase mapping). -/
def wiggleFrame (up lo : Char → List Char) (chars : List Char) (i : ℕ) :
    List Char :=
  chars.enum.map fun p =>
    if p.1 = i then firstScalar (up p.2) p.2 else firstScalar (lo p.2) p.2

/-- All frames `wiggle` renders (src/effects.rs lines 79-108): for each of
`settings.iterations` passes, one frame per character position. -/
def wiggleFrames (up lo : Char → List Char) (text : String)
    (settings : EffectSettings) : List (List Char) :=
  ((List.range settings.iterations).map fun _ =>
    (List.range text.data.length).map (wiggleFrame up lo text.data)).flatten

/-- Recognizes the sleep events of an effect run. -/
def OutEvent.isSleep : OutEvent → Bool
  | OutEvent.sleep _ => true
  | _ => false

/-! ## Banners (src/styles/banners.rs) -/

/-- `Position` from src/styles/banners.rs lines 12-16. -/
inductive Position where
  | top
  | middle
  | bottom
deriving DecidableEq, Repr

/-- `Banner` from src/styles/banners.rs lines 4-9. -/
structure Banner where
  asciiArt : String
  text : String
  padding : ℕ
  position : Position

/-- Strip one trailing carriage return from a line, as Rust's `str::lines`
does with `\r\n` endings. -/
def stripCR (l : List Char) : List Char :=
  if l.getLast? = some '\r' then l.dropLast else l

/-- Splitter for `rustLines`: walks the characters, emitting a line (with a
trailing `\r` stripped) at every `\n` and at the end of input. -/
def rustLinesAux : List Char → List Char → List String
  | [], acc => [String.mk (stripCR acc.reverse)]
  | '\n' :: rest, acc => String.mk (stripCR acc.reverse) :: rustLinesAux rest []
  | c :: rest, acc => rustLinesAux rest (c :: acc)

/-- Rust's `str::lines`: split on `\n` (one trailing newline produces no
final empty line, a final `\r` of each line is dropped, the empty string has
no lines). -/
def rustLines (s : String) : List String :=
  if s.data = [] then []
  else
    let cs := if s.data.getLast? = some '\n' then s.data.dropLast else s.data
    rustLinesAux cs []

/-- Rust's `str::trim_end`: drop trailing whitespace. -/
def rustTrimEnd (s : String) : String :=
  String.mk ((s.data.reverse.dropWhile fun c => c.isWhitespace).reverse)

/-- `Banner::render` from src/styles/banners.rs lines 46-83.  The terminal
width consumed by `center_text` is injected as `termWidth`.  `text_start` is
computed on `usize` as `total_lines - text_lines.len()` (Bottom) or
`(total_lines - text_lines.len()) / 2` (Middle); when the text has more
lines than the art the subtraction overflows (a panic in debug builds),
modelled as `none`.  Each composed line is the art line left-aligned to the
art block's maximum width, `padding` spaces, then the centered text line;
the joined lines are trimmed at the end. -/
def Banner.render (termWidth : ℕ) (b : Banner) : Option String :=
  let asciiLines := rustLines b.asciiArt
  let textLines := rustLines b.text
  let asciiWidth := (asciiLines.map String.utf8ByteSize).foldr max 0
  let totalLines := asciiLines.length
  (match b.position with
    | Position.top => some 0
    | Position.middle =>
      if textLines.length ≤ totalLines then some ((totalLines - textLines.length) / 2)
      else none
    | Position.bottom =>
      if textLines.length ≤ totalLines then some (totalLines - textLines.length)
      else none).bind fun textStart =>
  Option.map (fun ls : List String => rustTrimEnd (String.join (ls.map fun l => l ++ "\n")))
    ((List.range totalLines).mapM fun i =>
      let asciiLine := (asciiLines.get? i).getD ""
      let textLine :=
        if textStart ≤ i ∧ i < textStart + textLines.length then
          (textLines.get? (i - textStart)).getD ""
        else ""
      (centerText termWidth textLine).map fun centered =>
        formatLeftAlign asciiWidth asciiLine ++
          String.mk (List.replicate b.padding ' ') ++ centered)

/-! ## Theorems -/

/-- C1: the claim says `fade_color(start, end, 1)` returns exactly one color
equal to `start`.  The code does not guard the `steps == 1` divisor: `t` is
`0.0/0.0 = NaN`, the NaN propagates through every channel and `as u8` maps it
to 0, so the single returned color is `(0,0,0)` regardless of `start` — here
`start = (255,0,0)` comes back as black, contradicting the claim (a defect
the spec itself flags in the source). -/
theorem fadeColor_single_step_loses_start :
    fadeColor ⟨255, 0, 0⟩ ⟨0, 0, 0⟩ 1 = [⟨0, 0, 0⟩] ∧
    fadeColor ⟨255, 0, 0⟩ ⟨0, 0, 0⟩ 1 ≠ [⟨255, 0, 0⟩] := by
  decide

/-- C2: the claim says `print_fade` with an empty color list is a defined
no-op even for non-empty text.  The code computes `color_index = 0` and
indexes `colors[0]`, which is out of bounds for an empty list — a panic
(`none` in the model) on `print_fade("a", [])`.  Empty text, by contrast,
prints only RESET and does not panic. -/
theorem printFade_empty_colors_panics :
    printFade "a" [] = none ∧ printFade "" [] = some "\x1B[0m" := by
  constructor <;> rfl

/-- C3: the claim says `center_text` clamps its padding to zero when the text
is longer than the terminal width.  The code computes
`(width - text.len()) / 2` on `usize` without a guard, so an 81-byte text at
the 80-column fallback width underflows (panic in debug builds) instead of
returning the text unpadded; an 80-byte text still succeeds. -/
theorem centerText_overlong_text_panics :
    centerText 80 (String.mk (List.replicate 81 'a')) = none ∧
    centerText 80 (String.mk (List.replicate 80 'a')) =
      some (String.mk (List.replicate 80 'a')) := by
  constructor <;> rfl

/-- C4: the claim says `Banner::render` clamps `text_start` to zero when the
text has more lines than the ASCII art.  The code computes
`total_lines - text_lines.len()` (Bottom) and
`(total_lines - text_lines.len()) / 2` (Middle) on `usize` without a guard,
so one art line against two text lines underflows (panic in debug builds,
`none` in the model) instead of clamping; with three art lines the same
banner renders fine. -/
theorem bannerRender_excess_text_panics :
    Banner.render 80 ⟨"A", "x\ny", 0, Position.bottom⟩ = none ∧
    Banner.render 80 ⟨"A", "x\ny", 0, Position.middle⟩ = none ∧
    Banner.render 80 ⟨"A\nB\nC", "x\ny", 1, Position.bottom⟩ ≠ none := by
  refine ⟨rfl, rfl, ?_⟩
  decide

/-- C7: `to_256_color` is deterministic (a pure function of the channels),
bounded to `[16, 231]` for 8-bit channels, given by the exact
integer-truncating formula `16 + 36*(r*5/255) + 6*(g*5/255) + (b*5/255)`,
and maps `(255,0,0)` to 196. -/
theorem to256Color_spec (c : Color) (hr : c.r ≤ 255) (hg : c.g ≤ 255)
    (hb : c.b ≤ 255) :
    16 ≤ c.to256Color ∧ c.to256Color ≤ 231 ∧
    c.to256Color = 16 + 36 * (c.r * 5 / 255) + 6 * (c.g * 5 / 255) + (c.b * 5 / 255) ∧
    (Color.mk 255 0 0).to256Color = 196 := by
  refine ⟨?_, ?_, rfl, by decide⟩ <;>
    · simp only [Color.to256Color]
      omega

/-- Witness for `to256Color_spec` at the concrete color (10, 200, 30). -/
theorem to256Color_spec_witness :
    16 ≤ (Color.mk 10 200 30).to256Color ∧
    (Color.mk 10 200 30).to256Color ≤ 231 ∧
    (Color.mk 10 200 30).to256Color =
      16 + 36 * (10 * 5 / 255) + 6 * (200 * 5 / 255) + (30 * 5 / 255) ∧
    (Color.mk 255 0 0).to256Color = 196 :=
  to256Color_spec ⟨10, 200, 30⟩ (by decide) (by decide) (by decide)

/-- C5 counterexample: the claim says style 1 is a set of exactly eight
Braille-dot frames; the source lists ten
(`⠋ ⠙ ⠹ ⠸ ⠼ ⠴ ⠦ ⠧ ⠇ ⠏`, src/effects.rs line 196). -/
theorem spinnerChars_dots_not_eight : ¬ (spinnerChars 1).length = 8 := by
  decide

/-- C5 (amended: style 1 has ten Braille-dot frames, not eight):
`progress_spinner` draws its glyph sets from the chosen style — default
`| / - \`, style 1 ten Braille-dot frames, style 2 eight arrow-direction
frames; every step `i in 0..=total` prints the frame whose glyph is the set's
entry at index `i mod glyphCount` (see `spinnerFrame`); and the run ends with
RESET followed by a newline. -/
theorem progressSpinner_spec :
    spinnerChars 0 = ['|', '/', '-', '\\'] ∧
    (spinnerChars 1).length = 10 ∧
    (∀ c ∈ spinnerChars 1, 0x2800 ≤ c.toNat ∧ c.toNat ≤ 0x28FF) ∧
    spinnerChars 2 = ['←', '↖', '↑', '↗', '→', '↘', '↓', '↙'] ∧
    (∀ total settings color style i, i ≤ total →
      OutEvent.print (spinnerFrame color total i (spinnerChars style)) ∈
        progressSpinner total settings color style) ∧
    (∀ total settings color style,
      (progressSpinner total settings color style).getLast? =
        some (OutEvent.print (RESET ++ "\n"))) := by
  refine ⟨rfl, rfl, by decide, rfl, ?_, ?_⟩
  · intro total settings color style i hi
    apply List.mem_append_left
    rw [List.mem_flatten]
    refine ⟨[OutEvent.print (spinnerFrame color total i (spinnerChars style)),
      OutEvent.flush, OutEvent.sleep settings.delay], ?_, by simp⟩
    exact List.mem_map.mpr ⟨i, List.mem_range.mpr (by omega), rfl⟩
  · intro total settings color style
    exact List.getLast?_concat _

/-- Witness for `progressSpinner_spec`: its glyph-membership conjunct at
`total = 2`, `i = 1`, default settings, color (1,2,3), style 0. -/
theorem progressSpinner_spec_witness :
    OutEvent.print (spinnerFrame ⟨1, 2, 3⟩ 2 1 (spinnerChars 0)) ∈
      progressSpinner 2 EffectSettings.default ⟨1, 2, 3⟩ 0 :=
  progressSpinner_spec.2.2.2.2.1 2 EffectSettings.default ⟨1, 2, 3⟩ 0 1
    (by decide)

/-- C6 counterexample: the claim says a row with fewer cells than headers is
rendered with the missing trailing cells as empty zero-width cells rather
than omitted from the row line.  With headers `["A", "BB"]` and the single
row `["x"]` the source renders the row line `║ x ║` — the second column is
omitted entirely — while the claimed empty-cell rendering would give
`║ x │    ║`. -/
theorem createTable_short_row_cells_omitted :
    renderRow [1, 2] ["x"] = some "║ x ║" ∧
    renderRowPadded [1, 2] ["x"] = some "║ x │    ║" ∧
    ("║ x ║" : String) ≠ "║ x │    ║" ∧
    createTable ["A", "BB"] [["x"]] none =
      some "╔═══╦════╗\n║ A │ BB ║\n╠═══╬════╣\n║ x ║\n╚═══╩════╝\n" := by
  refine ⟨rfl, rfl, by decide, rfl⟩

/-- Every element of a list of naturals is bounded by its
`max().unwrap_or(0)` fold. -/
theorem le_foldr_max {l : List ℕ} {x : ℕ} (hx : x ∈ l) : x ≤ l.foldr max 0 := by
  induction l with
  | nil => cases hx
  | cons a l ih =>
    rcases List.mem_cons.mp hx with h | h
    · simp [h]
    · simp only [List.foldr_cons]
      exact le_max_of_le_right (ih h)

/-- The `max().unwrap_or(0)` fold is zero or attained by an element. -/
theorem foldr_max_eq_zero_or_mem (l : List ℕ) :
    l.foldr max 0 = 0 ∨ l.foldr max 0 ∈ l := by
  induction l with
  | nil => exact Or.inl rfl
  | cons a l ih =>
    simp only [List.foldr_cons]
    rcases max_choice a (l.foldr max 0) with h | h
    · rw [h]; exact Or.inr (List.mem_cons_self a l)
    · rw [h]
      rcases ih with h0 | hm
      · exact Or.inl h0
      · exact Or.inr (List.mem_cons_of_mem a hm)

/-- The entry of `columnWidths` at a valid column index. -/
theorem columnWidths_get (headers : List String) (rows : List (List String))
    (i : ℕ) (h : i < headers.length) :
    (columnWidths headers rows).get? i =
      some (max ((rows.map fun r => cellLen r i).foldr max 0)
        ((headers.get ⟨i, h⟩).utf8ByteSize)) := by
  simp [columnWidths, List.get?_map, List.get?_enum, List.get?_eq_get h]
  exact ⟨headers[i], List.getElem?_eq_getElem h, rfl⟩

/-- `columnWidths` has one width per header. -/
theorem columnWidths_length (headers : List String) (rows : List (List String)) :
    (columnWidths headers rows).length = headers.length := by
  simp [columnWidths]

/-- `renderCells` reads the width list only at the indices of its pairs. -/
theorem renderCells_congr {w1 w2 : List ℕ} {rowLen : ℕ}
    {ps : List (ℕ × String)} (h : ∀ p ∈ ps, w1.get? p.1 = w2.get? p.1) :
    renderCells w1 rowLen ps = renderCells w2 rowLen ps := by
  induction ps with
  | nil => rfl
  | cons p ps ih =>
    simp only [renderCells]
    rw [h p (List.mem_cons_self p ps),
      ih fun q hq => h q (List.mem_cons_of_mem p hq)]

/-- `renderCells` succeeds when every pair's index is inside the width list. -/
theorem renderCells_isSome {w : List ℕ} {rowLen : ℕ} {ps : List (ℕ × String)}
    (h : ∀ p ∈ ps, p.1 < w.length) : (renderCells w rowLen ps).isSome := by
  induction ps with
  | nil => rfl
  | cons p ps ih =>
    simp only [renderCells]
    obtain ⟨v, hv⟩ := Option.isSome_iff_exists.mp
      (by rw [List.get?_eq_get (h p (List.mem_cons_self p ps))]; rfl :
        (w.get? p.1).isSome)
    obtain ⟨s, hs⟩ := Option.isSome_iff_exists.mp
      (ih fun q hq => h q (List.mem_cons_of_mem p hq))
    rw [hv, hs]
    rfl

/-- A list `mapM` over `Option` succeeds when every element does. -/
theorem mapM_option_isSome {α β : Type} {f : α → Option β} {l : List α}
    (h : ∀ a ∈ l, (f a).isSome) : (l.mapM f).isSome := by
  induction l with
  | nil => rfl
  | cons a l ih =>
    rw [List.mapM_cons]
    obtain ⟨b, hb⟩ := Option.isSome_iff_exists.mp (h a (List.mem_cons_self a l))
    obtain ⟨bs, hbs⟩ := Option.isSome_iff_exists.mp
      (ih fun x hx => h x (List.mem_cons_of_mem a hx))
    rw [hb, hbs]
    rfl

/-- Indices occurring in `row.enum` are below `row.length`. -/
theorem enum_fst_lt {α : Type} {row : List α} {p : ℕ × α} (hp : p ∈ row.enum) :
    p.1 < row.length :=
  (List.getElem?_eq_some.mp (List.mem_enum_iff_getElem?.mp hp)).1

/-- C6 (amended: the width computation treats a missing cell index as length
zero, and a row with fewer cells than there are headers is not an error — it
renders only the cells it has, the missing trailing cells being omitted from
the row line rather than drawn as empty cells):
(a) each column width is the maximum of the header length and all that
column's cell lengths (missing index counts 0): it bounds them all and is
attained by one of them; (b) rendering a short row succeeds and depends only
on the first `row.length` column widths (the trailing columns contribute
nothing to the line); (c) a whole table whose rows all have at most as many
cells as there are headers renders without error. -/
theorem createTable_spec :
    (∀ (headers : List String) (rows : List (List String)) (i : ℕ)
      (h : i < headers.length), ∃ w,
      (columnWidths headers rows).get? i = some w ∧
      (headers.get ⟨i, h⟩).utf8ByteSize ≤ w ∧
      (∀ row ∈ rows, cellLen row i ≤ w) ∧
      (w = (headers.get ⟨i, h⟩).utf8ByteSize ∨ ∃ row ∈ rows, w = cellLen row i)) ∧
    (∀ (widths : List ℕ) (row : List String), row.length ≤ widths.length →
      (renderRow widths row).isSome ∧
      renderRow widths row = renderRow (widths.take row.length) row) ∧
    (∀ (headers : List String) (rows : List (List String)) (color : Option Color),
      (∀ row ∈ rows, row.length ≤ headers.length) →
      (createTable headers rows color).isSome) := by
  have hrow : ∀ (widths : List ℕ) (row : List String),
      row.length ≤ widths.length →
      (renderRow widths row).isSome ∧
      renderRow widths row = renderRow (widths.take row.length) row := by
    intro widths row hle
    have hlt : ∀ p ∈ row.enum, p.1 < row.length := fun p hp => enum_fst_lt hp
    constructor
    · obtain ⟨s, hs⟩ := Option.isSome_iff_exists.mp
        (@renderCells_isSome widths row.length row.enum
          fun p hp => lt_of_lt_of_le (hlt p hp) hle)
      simp [renderRow, hs]
    · unfold renderRow
      rw [renderCells_congr fun p hp =>
        (List.get?_take (hlt p hp)).symm]
  refine ⟨?_, hrow, ?_⟩
  · intro headers rows i h
    refine ⟨max ((rows.map fun r => cellLen r i).foldr max 0)
      ((headers.get ⟨i, h⟩).utf8ByteSize),
      columnWidths_get headers rows i h, le_max_right _ _, ?_, ?_⟩
    · intro row hrow
      exact le_trans (le_foldr_max (List.mem_map_of_mem (fun r => cellLen r i) hrow))
        (le_max_left _ _)
    · rcases max_choice ((rows.map fun r => cellLen r i).foldr max 0)
        ((headers.get ⟨i, h⟩).utf8ByteSize) with hm | hm
      · rw [hm]
        rcases foldr_max_eq_zero_or_mem (rows.map fun r => cellLen r i) with h0 | hmem
        · left
          have hb := le_max_right ((rows.map fun r => cellLen r i).foldr max 0)
            ((headers.get ⟨i, h⟩).utf8ByteSize)
          rw [hm, h0] at hb
          omega
        · right
          obtain ⟨row, hrw, hrweq⟩ := List.mem_map.mp hmem
          exact ⟨row, hrw, hrweq.symm⟩
      · rw [hm]
        exact Or.inl rfl
  · intro headers rows color hshort
    have hwl : (columnWidths headers rows).length = headers.length :=
      columnWidths_length headers rows
    obtain ⟨hl, hhl⟩ := Option.isSome_iff_exists.mp
      ((hrow (columnWidths headers rows) headers (le_of_eq hwl.symm)).1)
    obtain ⟨rls, hrls⟩ := Option.isSome_iff_exists.mp
      (@mapM_option_isSome _ _ (renderRow (columnWidths headers rows)) rows
        fun row hr =>
        (hrow (columnWidths headers rows) row
          (le_trans (hshort row hr) (le_of_eq hwl.symm))).1)
    simp only [createTable, hhl, hrls]
    rfl

/-- Witness for `createTable_spec`: its no-error conjunct at the concrete
table with headers `["A", "BB"]` and the single short row `["x"]`. -/
theorem createTable_spec_witness :
    (createTable ["A", "BB"] [["x"]] none).isSome :=
  createTable_spec.2.2 ["A", "BB"] [["x"]] none (by decide)

/-- The characters `natDigits` emits are decimal digits. -/
theorem digit_isDigit {m : ℕ} (h : m < 10) : (Char.ofNat (48 + m)).isDigit := by
  interval_cases m <;> decide

/-- Code point of a digit character emitted by `natDigits`. -/
theorem digit_toNat {m : ℕ} (h : m < 10) : (Char.ofNat (48 + m)).toNat = 48 + m := by
  interval_cases m <;> decide

/-- Consuming the decimal rendering of `n` from the front of the input adds
`n` to the shifted accumulator and leaves the rest untouched. -/
theorem readNat_natDigits (n : ℕ) : ∀ (acc : ℕ) (rest : List Char),
    readNat (natDigits n ++ rest) acc =
      readNat rest (acc * 10 ^ (natDigits n).length + n) := by
  induction n using Nat.strong_induction_on with
  | _ n ih =>
    intro acc rest
    rw [natDigits]
    by_cases h : n < 10
    · simp only [h, dite_true, List.cons_append, List.nil_append, readNat,
        List.length_cons, List.length_nil]
      rw [if_pos (digit_isDigit h), digit_toNat h]
      norm_num
    · simp only [h, dite_false]
      rw [List.append_assoc, ih (n / 10) (Nat.div_lt_self (by omega) (by omega)),
        List.cons_append, List.nil_append]
      have h10 : n % 10 < 10 := Nat.mod_lt n (by omega)
      simp only [readNat]
      rw [if_pos (digit_isDigit h10), digit_toNat h10]
      have harith :
          (acc * 10 ^ (natDigits (n / 10)).length + n / 10) * 10 + (48 + n % 10 - 48) =
            acc * 10 ^ (natDigits (n / 10) ++ [Char.ofNat (48 + n % 10)]).length + n := by
        have hdm : 10 * (n / 10) + n % 10 = n := Nat.div_add_mod n 10
        simp only [List.length_append, List.length_cons, List.length_nil]
        ring_nf
        omega
      rw [harith]

/-- `readNat` stops at a non-digit character. -/
theorem readNat_semicolon (l : List Char) (acc : ℕ) :
    readNat (';' :: l) acc = (acc, ';' :: l) := by
  simp [readNat]

/-- `readNat` stops at the final `m`. -/
theorem readNat_m (l : List Char) (acc : ℕ) :
    readNat ('m' :: l) acc = (acc, 'm' :: l) := by
  simp [readNat]

/-- The tail parser recovers the three integers from a rendered tail. -/
theorem parseRgbTail_digits (r g b : ℕ) :
    parseRgbTail (natDigits r ++ ';' :: (natDigits g ++ ';' :: (natDigits b ++ ['m']))) =
      some (r, g, b) := by
  unfold parseRgbTail
  simp only [readNat_natDigits, readNat_semicolon, readNat_m, zero_mul, zero_add,
    expectSemi, expectEnd, Option.some_bind, if_true]

/-- C8: round-trip — rendering any `Color` to its ANSI escape sequence
`ESC[38;2;r;g;bm` and parsing back the three embedded decimal integers
recovers exactly the original channel triple. -/
theorem toAnsi_parse_roundtrip (c : Color) :
    parseRgbAnsi c.toAnsi = some (c.r, c.g, c.b) := by
  obtain ⟨r, g, b⟩ := c
  show parseRgbAnsi (String.mk (ansiChars r g b)) = some (r, g, b)
  have htake : (String.mk (ansiChars r g b)).data.take 7 =
      ['\x1B', '[', '3', '8', ';', '2', ';'] := rfl
  have hdrop : (String.mk (ansiChars r g b)).data.drop 7 =
      natDigits r ++ ';' :: (natDigits g ++ ';' :: (natDigits b ++ ['m'])) := rfl
  unfold parseRgbAnsi
  rw [htake, hdrop, if_pos rfl]
  exact parseRgbTail_digits r g b

/-- C9: `rainbow_text` cycles the fixed 7-color spectrum
red → orange → yellow → green → blue → indigo → violet: the palette is
exactly those seven colors; at rotation `i` the `j`-th character of the frame
is rendered with the palette entry at index `(i + j) mod 7`; every rotation
`i in 0..7` of every iteration reprints the whole line in place (the `\r`
frame is an emitted event whenever there is at least one iteration); and
there is exactly one sleep per redraw — `iterations * 7` sleeps in total. -/
theorem rainbowText_spec :
    rainbowColors = [⟨255, 0, 0⟩, ⟨255, 127, 0⟩, ⟨255, 255, 0⟩, ⟨0, 255, 0⟩,
      ⟨0, 0, 255⟩, ⟨75, 0, 130⟩, ⟨143, 0, 255⟩] ∧
    rainbowColors.length = 7 ∧
    (∀ (text : String) (i j : ℕ) (c : Char), text.data.get? j = some c →
      (text.data.enum.map (rainbowSegment i)).get? j =
        some (((rainbowColors.get? ((i + j) % 7)).getD ⟨0, 0, 0⟩).toAnsi ++
          c.toString)) ∧
    (∀ (text : String) (settings : EffectSettings), 0 < settings.iterations →
      ∀ i < 7, OutEvent.print ("\r" ++ rainbowFrame text i ++ RESET) ∈
        rainbowText text settings) ∧
    (∀ (text : String) (settings : EffectSettings),
      (rainbowText text settings).countP OutEvent.isSleep =
        settings.iterations * 7) := by
  refine ⟨rfl, rfl, ?_, ?_, ?_⟩
  · intro text i j c hc
    rw [List.get?_map, List.get?_enum, hc]
    rfl
  · intro text settings hiter i hi
    apply List.mem_append_left
    rw [List.mem_flatten]
    refine ⟨((List.range rainbowColors.length).map fun k =>
      [OutEvent.print ("\r" ++ rainbowFrame text k ++ RESET),
       OutEvent.flush, OutEvent.sleep settings.delay]).flatten,
      List.mem_map.mpr ⟨0, List.mem_range.mpr hiter, rfl⟩, ?_⟩
    rw [List.mem_flatten]
    exact ⟨[OutEvent.print ("\r" ++ rainbowFrame text i ++ RESET),
      OutEvent.flush, OutEvent.sleep settings.delay],
      List.mem_map.mpr ⟨i, List.mem_range.mpr hi, rfl⟩, by simp⟩
  · intro text settings
    unfold rainbowText
    rw [List.countP_append, List.countP_flatten, List.map_map]
    have hinner : ∀ k : ℕ,
        (((List.range rainbowColors.length).map fun i =>
          [OutEvent.print ("\r" ++ rainbowFrame text i ++ RESET),
           OutEvent.flush, OutEvent.sleep settings.delay]).flatten).countP
          OutEvent.isSleep = 7 := by
      intro k
      rw [List.countP_flatten, List.map_map]
      have : ∀ i : ℕ, (List.countP OutEvent.isSleep ∘ fun i =>
          [OutEvent.print ("\r" ++ rainbowFrame text i ++ RESET),
           OutEvent.flush, OutEvent.sleep settings.delay]) i = 1 := by
        intro i
        simp [List.countP_cons, List.countP_nil, OutEvent.isSleep]
      rw [List.map_congr_left fun i _ => this i]
      simp [List.map_const', List.sum_replicate]
      rfl
    rw [List.map_congr_left fun k _ => by
      simpa using hinner k]
    simp [List.map_const', List.sum_replicate, List.countP_cons, List.countP_nil,
      OutEvent.isSleep, mul_comm]

/-- Witness for `rainbowText_spec`: its per-character conjunct at rotation 1,
position 0 of the text "ab", and its frame-membership conjunct at rotation 2
with default settings. -/
theorem rainbowText_spec_witness :
    ("ab".data.enum.map (rainbowSegment 1)).get? 0 =
      some (((rainbowColors.get? ((1 + 0) % 7)).getD ⟨0, 0, 0⟩).toAnsi ++
        'a'.toString) ∧
    OutEvent.print ("\r" ++ rainbowFrame "ab" 2 ++ RESET) ∈
      rainbowText "ab" EffectSettings.default :=
  ⟨rainbowText_spec.2.2.1 "ab" 1 0 'a' rfl,
   rainbowText_spec.2.2.2.1 "ab" EffectSettings.default (by decide) 2 (by decide)⟩

/-- C10: every frame `wiggle` renders has exactly as many characters as the
input text, and differs from it only in letter case: there is one selected
position `i`, and the character at each position `j` is the first scalar of
the uppercase mapping of the input character when `j = i` (multi-character
case expansions are truncated to their first character by
`to_uppercase().next().unwrap_or(c)`), and the first scalar of the lowercase
mapping otherwise.  The Unicode case tables live in Rust's standard library,
so the mappings are parameters `up`/`lo`. -/
theorem wiggle_frame_invariant (up lo : Char → List Char) (text : String)
    (settings : EffectSettings) (frame : List Char)
    (hf : frame ∈ wiggleFrames up lo text settings) :
    frame.length = text.data.length ∧
    ∃ i < text.data.length,
      ∀ (j : ℕ) (c : Char), text.data.get? j = some c →
        frame.get? j =
          some (if j = i then firstScalar (up c) c else firstScalar (lo c) c) := by
  obtain ⟨l, hl, hfl⟩ := List.mem_flatten.mp hf
  obtain ⟨k, hk, rfl⟩ := List.mem_map.mp hl
  obtain ⟨i, hi, rfl⟩ := List.mem_map.mp hfl
  refine ⟨?_, i, List.mem_range.mp hi, ?_⟩
  · simp [wiggleFrame]
  · intro j c hc
    rw [wiggleFrame, List.get?_map, List.get?_enum, hc]
    rfl

/-- Witness for `wiggle_frame_invariant`: the concrete frame `['A', 'b']`
rendered by one pass of `wiggle` over `"ab"` with the ASCII case mappings. -/
theorem wiggle_frame_invariant_witness :
    (['A', 'b'] : List Char).length = "ab".data.length ∧
    ∃ i < "ab".data.length,
      ∀ (j : ℕ) (c : Char), "ab".data.get? j = some c →
        (['A', 'b'] : List Char).get? j =
          some (if j = i then firstScalar [c.toUpper] c
            else firstScalar [c.toLower] c) :=
  wiggle_frame_invariant (fun c => [c.toUpper]) (fun c => [c.toLower]) "ab"
    ⟨0, 1, 20⟩ ['A', 'b'] (by decide)

end RustyTermcolor
